import Mathlib

/-!
Shallow embedding of `src/geocode_listings.py`, a batch geocoding job:
it selects normalized addresses from rank-1 listing rows that are missing
from a location cache, geocodes each through an external provider, and
upserts the result into the cache, tracking success/failure counts.

External effects (database queries, HTTP provider calls, write failures)
are modelled by explicit parameters: row lists for table contents, an
`Except`-valued provider function, and boolean success flags for the
fallible connection/query/write operations.
-/

namespace Geocode

/-- SQL `TRIM`: strips leading and trailing space characters (PostgreSQL
`TRIM` removes the space character by default). -/
def sqlTrim (s : String) : String :=
  ⟨((s.data.dropWhile (· == ' ')).reverse.dropWhile (· == ' ')).reverse⟩

/-- SQL `UPPER`: upper-cases every character. -/
def sqlUpper (s : String) : String :=
  ⟨s.data.map Char.toUpper⟩

/-- The normalized address key `UPPER(TRIM(address))` used by both the
cache-miss query and (via the selected key) the cache write path. -/
def normalize (s : String) : String :=
  sqlUpper (sqlTrim s)

/-- A row of `marts.unified_listings_vw`: the address column (nullable),
the originating source, and the file date used for ranking. -/
structure ListingRow where
  address : Option String
  source_name : String
  filename_date : Int
deriving Repr, DecidableEq

/-- A row of `public.locations_cache`. Coordinates and the timestamp are
modelled as integers; the claims only move them, never compute on them. -/
structure CacheEntry where
  address_key : String
  latitude : Int
  longitude : Int
  updated_at : Int
deriving Repr, DecidableEq

/-- The CTE filter `WHERE address IS NOT NULL AND TRIM(address) != ''`. -/
def validRow (r : ListingRow) : Bool :=
  match r.address with
  | none => false
  | some a => sqlTrim a != ""

/-- `DENSE_RANK() OVER(PARTITION BY source_name ORDER BY filename_date DESC) = 1`:
a row has rank 1 iff no row of the same partition (among the rows that
survived the CTE filter) has a strictly later `filename_date`. -/
def denseRank1 (filtered : List ListingRow) (r : ListingRow) : Bool :=
  filtered.all fun r2 =>
    r2.source_name != r.source_name || decide (r2.filename_date ≤ r.filename_date)

/-- Membership test for the `NOT IN (SELECT address_key FROM locations_cache)`
subquery. -/
def cacheHasKey (cache : List CacheEntry) (k : String) : Bool :=
  cache.any fun e => e.address_key == k

/-- `fetch_missing_addresses`: evaluates the SQL query over the listing
rows and cache rows; `queryOk = false` models the `except` branch, which
reports an empty list. The query filters the CTE, keeps rank-1 rows, maps
them to `UPPER(TRIM(address))`, drops keys present in the cache, takes
distinct keys, orders ascending and limits to 50. -/
def fetch_missing_addresses (rows : List ListingRow) (cache : List CacheEntry)
    (queryOk : Bool) : List String :=
  if queryOk then
    let filtered := rows.filter validRow
    let rank1 := filtered.filter (denseRank1 filtered)
    let keys := rank1.filterMap fun r => r.address.map normalize
    let missing := keys.filter fun k => !(cacheHasKey cache k)
    (List.insertionSort (· ≤ ·) missing.dedup).take 50
  else []

/-- One candidate result from the geocoding provider: the
`result[i]['geometry']['location']` latitude/longitude pair. -/
structure Candidate where
  lat : Int
  lng : Int
deriving Repr, DecidableEq

/-- The external provider `gmaps_client.geocode`: maps the queried string
to a candidate list, or to an error (a raised exception). -/
def Provider : Type := String → Except String (List Candidate)

/-- `geocode_address`: appends the fixed locality suffix and queries the
provider; returns the first candidate's coordinates, or `(none, none)`
when the provider raises or returns an empty result list. -/
def geocode_address (provider : Provider) (address : String) :
    Option Int × Option Int :=
  let full_address := address ++ ", New York, NY"
  match provider full_address with
  | Except.ok result =>
    match result with
    | [] => (none, none)
    | c :: _ => (some c.lat, some c.lng)
  | Except.error _ => (none, none)

/-- The effect of the `INSERT ... ON CONFLICT (address_key) DO UPDATE` on
the cache table: update the matching row in place when the key exists,
else append a new row. -/
def upsert (cache : List CacheEntry) (k : String) (lat lng now : Int) :
    List CacheEntry :=
  if cacheHasKey cache k then
    cache.map fun e => if e.address_key == k then ⟨k, lat, lng, now⟩ else e
  else
    cache ++ [⟨k, lat, lng, now⟩]

/-- `insert_location`: commits the upsert and returns `True` when the
write succeeds; on failure (`writeOk = false`, the `except` branch) the
transaction is rolled back, leaving the cache unchanged, and returns
`False`. The pair is (cache state after the call, returned boolean). -/
def insert_location (cache : List CacheEntry) (address_key : String)
    (latitude longitude : Int) (now : Int) (writeOk : Bool) :
    List CacheEntry × Bool :=
  if writeOk then (upsert cache address_key latitude longitude now, true)
  else (cache, false)

/-- Mutable state of `main`'s loop: the cache table plus the two counters. -/
structure RunState where
  cache : List CacheEntry
  success_count : Nat
  fail_count : Nat
deriving Repr, DecidableEq

/-- One iteration of `main`'s loop body for `address_key`: geocode, then
cache on success; exactly one counter is incremented. `writeOk` tells,
per key, whether the database accepts the write. -/
def processAddress (provider : Provider) (writeOk : String → Bool) (now : Int)
    (st : RunState) (address_key : String) : RunState :=
  match geocode_address provider address_key with
  | (some lat, some lng) =>
    let r := insert_location st.cache address_key lat lng now (writeOk address_key)
    if r.2 then ⟨r.1, st.success_count + 1, st.fail_count⟩
    else ⟨r.1, st.success_count, st.fail_count + 1⟩
  | _ => ⟨st.cache, st.success_count, st.fail_count + 1⟩

/-- `main`'s `for` loop over the fetched addresses. -/
def runBatch (provider : Provider) (writeOk : String → Bool) (now : Int)
    (addresses : List String) (st : RunState) : RunState :=
  addresses.foldl (processAddress provider writeOk now) st

/-- `get_db_connection`: `sys.exit(1)` when `SUPABASE_URI` is unset or the
connection attempt raises; otherwise yields the connection. -/
def get_db_connection (uri : Option String) (connectOk : Bool) :
    Except Nat Unit :=
  match uri with
  | none => Except.error 1
  | some _ => if connectOk then Except.ok () else Except.error 1

/-- `get_gmaps_client`: `sys.exit(1)` when `GMAPS_KEY` is unset; a client
constructor that raises is uncaught, so the process also exits with
status 1 (Python's exit status for an uncaught exception). -/
def get_gmaps_client (key : Option String) (clientOk : Bool) :
    Except Nat Unit :=
  match key with
  | none => Except.error 1
  | some _ => if clientOk then Except.ok () else Except.error 1

/-- Observable outcome of one process invocation: the exit status, the
final cache table, the two counters, and the `Total processed` figure of
the final summary (`len(addresses)`). -/
structure RunOutcome where
  exitCode : Nat
  cache : List CacheEntry
  success_count : Nat
  fail_count : Nat
  total : Nat
deriving Repr, DecidableEq

/-- `main`: startup validation (connection, then client), fetch of the
pending addresses, early return when none, else the loop and the summary.
Every path past startup returns normally, i.e. exit status 0. -/
def main_run (uri key : Option String) (connectOk clientOk : Bool)
    (rows : List ListingRow) (cache0 : List CacheEntry) (queryOk : Bool)
    (provider : Provider) (writeOk : String → Bool) (now : Int) : RunOutcome :=
  match get_db_connection uri connectOk with
  | Except.error c => ⟨c, cache0, 0, 0, 0⟩
  | Except.ok _ =>
    match get_gmaps_client key clientOk with
    | Except.error c => ⟨c, cache0, 0, 0, 0⟩
    | Except.ok _ =>
      let addresses := fetch_missing_addresses rows cache0 queryOk
      if addresses.isEmpty then ⟨0, cache0, 0, 0, 0⟩
      else
        let st := runBatch provider writeOk now addresses ⟨cache0, 0, 0⟩
        ⟨0, st.cache, st.success_count, st.fail_count, addresses.length⟩

/-- The list of keys of the cache table; the table's unique constraint on
`address_key` is the statement that this list has no duplicates. -/
def cacheKeys (cache : List CacheEntry) : List String :=
  cache.map fun e => e.address_key

/-- Reading the cache row for a key. -/
def lookupCache (cache : List CacheEntry) (k : String) :
    Option (Int × Int × Int) :=
  (cache.find? fun e => e.address_key == k).map fun e =>
    (e.latitude, e.longitude, e.updated_at)

/-- The cache-miss set as the spec words it: a key is pending when it is
the normalized form of the address of some rank-1 source row (rows with
null or blank addresses excluded) and is absent from the cache. -/
def pendingKey (rows : List ListingRow) (cache : List CacheEntry)
    (k : String) : Prop :=
  (∃ r ∈ rows.filter validRow,
      denseRank1 (rows.filter validRow) r = true ∧
      r.address.map normalize = some k) ∧
  cacheHasKey cache k = false

/-- One iteration of the loop touches exactly one counter: the sum of the
two counters grows by exactly one per processed address. -/
theorem processAddress_counter_step (provider : Provider)
    (writeOk : String → Bool) (now : Int) (st : RunState) (a : String) :
    (processAddress provider writeOk now st a).success_count
      + (processAddress provider writeOk now st a).fail_count
      = st.success_count + st.fail_count + 1 := by
  unfold processAddress
  rcases hga : geocode_address provider a with ⟨lat, lng⟩
  rcases lat with _ | la <;> rcases lng with _ | ln <;> simp <;> try omega
  split <;> simp <;> omega

/-- Folding the loop over a list grows the counter sum by its length. -/
theorem runBatch_counter_sum (provider : Provider) (writeOk : String → Bool)
    (now : Int) (addresses : List String) (st : RunState) :
    (runBatch provider writeOk now addresses st).success_count
      + (runBatch provider writeOk now addresses st).fail_count
      = st.success_count + st.fail_count + addresses.length := by
  induction addresses generalizing st with
  | nil => simp [runBatch]
  | cons a l ih =>
    have h1 : runBatch provider writeOk now (a :: l) st
        = runBatch provider writeOk now l (processAddress provider writeOk now st a) := by
      simp [runBatch]
    rw [h1, ih]
    have := processAddress_counter_step provider writeOk now st a
    simp only [List.length_cons]
    omega

/-- C10: each address increments exactly one of the two counters exactly
once, so at the end of the run `success_count + fail_count` equals the
number of pending addresses fetched, and the final summary's total equals
that same number. -/
theorem counter_invariant (provider : Provider) (writeOk : String → Bool)
    (now : Int) :
    (∀ st a, (processAddress provider writeOk now st a).success_count
        + (processAddress provider writeOk now st a).fail_count
        = st.success_count + st.fail_count + 1) ∧
    (∀ addresses st, (runBatch provider writeOk now addresses st).success_count
        + (runBatch provider writeOk now addresses st).fail_count
        = st.success_count + st.fail_count + addresses.length) ∧
    (∀ uri key connectOk clientOk rows cache0 queryOk,
      (main_run uri key connectOk clientOk rows cache0 queryOk provider writeOk now).success_count
        + (main_run uri key connectOk clientOk rows cache0 queryOk provider writeOk now).fail_count
        = (main_run uri key connectOk clientOk rows cache0 queryOk provider writeOk now).total
      ∧ ((main_run uri key connectOk clientOk rows cache0 queryOk provider writeOk now).exitCode = 0 →
          (main_run uri key connectOk clientOk rows cache0 queryOk provider writeOk now).total
            = (fetch_missing_addresses rows cache0 queryOk).length)) := by
  refine ⟨processAddress_counter_step provider writeOk now,
          runBatch_counter_sum provider writeOk now, ?_⟩
  intro uri key connectOk clientOk rows cache0 queryOk
  unfold main_run
  rcases uri with _ | u <;> rcases key with _ | k <;>
    simp [get_db_connection, get_gmaps_client]
  · rcases connectOk <;> simp
  · rcases connectOk <;> rcases clientOk <;> simp
    by_cases hempty : fetch_missing_addresses rows cache0 queryOk = [] <;>
      simp [hempty]
    have := runBatch_counter_sum provider writeOk now
      (fetch_missing_addresses rows cache0 queryOk) ⟨cache0, 0, 0⟩
    simpa using this

/-- C9: `geocode_address` queries the provider with the locality suffix
appended; a nonempty candidate list yields the first candidate's
coordinates; an empty list or a provider error yields `(none, none)`. -/
theorem geocode_address_spec (provider : Provider) (address : String) :
    (∀ c cs, provider (address ++ ", New York, NY") = Except.ok (c :: cs) →
      geocode_address provider address = (some c.lat, some c.lng)) ∧
    (provider (address ++ ", New York, NY") = Except.ok [] →
      geocode_address provider address = (none, none)) ∧
    (∀ e, provider (address ++ ", New York, NY") = Except.error e →
      geocode_address provider address = (none, none)) := by
  refine ⟨?_, ?_, ?_⟩
  · intro c cs h; simp [geocode_address, h]
  · intro h; simp [geocode_address, h]
  · intro e h; simp [geocode_address, h]

/-- The loop processes a list address by address: after processing `a`,
the fold continues over the remaining addresses. -/
theorem runBatch_append (provider : Provider) (writeOk : String → Bool)
    (now : Int) (l1 l2 : List String) (a : String) (st : RunState) :
    runBatch provider writeOk now (l1 ++ a :: l2) st =
      runBatch provider writeOk now l2
        (processAddress provider writeOk now
          (runBatch provider writeOk now l1 st) a) := by
  simp [runBatch, List.foldl_append]

/-- C4: a provider error or an empty candidate list is a per-address
failure: the failure counter is incremented, the cache is untouched, and
the loop goes on to the remaining addresses. -/
theorem lookup_failure_recovered (provider : Provider)
    (writeOk : String → Bool) (now : Int) (a : String)
    (h : provider (a ++ ", New York, NY") = Except.ok [] ∨
         ∃ e, provider (a ++ ", New York, NY") = Except.error e) :
    (∀ st, processAddress provider writeOk now st a =
        ⟨st.cache, st.success_count, st.fail_count + 1⟩) ∧
    (∀ l1 l2 st, runBatch provider writeOk now (l1 ++ a :: l2) st =
        runBatch provider writeOk now l2
          (processAddress provider writeOk now
            (runBatch provider writeOk now l1 st) a)) := by
  constructor
  · intro st
    have hg : geocode_address provider a = (none, none) := by
      rcases h with h | ⟨e, h⟩ <;> simp [geocode_address, h]
    simp [processAddress, hg]
  · intro l1 l2 st
    exact runBatch_append provider writeOk now l1 l2 a st

/-- Witness for C4 at a concrete provider that returns zero candidates. -/
theorem lookup_failure_recovered_witness :
    processAddress (fun _ => Except.ok []) (fun _ => true) 0 ⟨[], 3, 4⟩ "X"
      = ⟨[], 3, 5⟩ :=
  (lookup_failure_recovered (fun _ => Except.ok []) (fun _ => true) 0 "X"
    (Or.inl rfl)).1 ⟨[], 3, 4⟩

/-- C5: a failed cache write is rolled back (the cache is unchanged, so
the connection's state stays consistent), reported as `False`, counted as
a failure, and the loop goes on to the remaining addresses. -/
theorem upsert_failure_recovered (provider : Provider)
    (writeOk : String → Bool) (now : Int) (a : String) (c : Candidate)
    (cs : List Candidate)
    (hp : provider (a ++ ", New York, NY") = Except.ok (c :: cs))
    (hw : writeOk a = false) :
    (∀ cache lat lng, insert_location cache a lat lng now (writeOk a)
        = (cache, false)) ∧
    (∀ st, processAddress provider writeOk now st a =
        ⟨st.cache, st.success_count, st.fail_count + 1⟩) ∧
    (∀ l1 l2 st, runBatch provider writeOk now (l1 ++ a :: l2) st =
        runBatch provider writeOk now l2
          (processAddress provider writeOk now
            (runBatch provider writeOk now l1 st) a)) := by
  have hg : geocode_address provider a = (some c.lat, some c.lng) := by
    simp [geocode_address, hp]
  refine ⟨?_, ?_, ?_⟩
  · intro cache lat lng
    simp [insert_location, hw]
  · intro st
    simp [processAddress, hg, insert_location, hw]
  · intro l1 l2 st
    exact runBatch_append provider writeOk now l1 l2 a st

/-- Witness for C5 at a concrete provider and a rejecting database. -/
theorem upsert_failure_recovered_witness :
    processAddress (fun _ => Except.ok [⟨7, 8⟩]) (fun _ => false) 0
        ⟨[⟨"K", 1, 2, 3⟩], 3, 4⟩ "X"
      = ⟨[⟨"K", 1, 2, 3⟩], 3, 5⟩ :=
  (upsert_failure_recovered (fun _ => Except.ok [⟨7, 8⟩]) (fun _ => false) 0
    "X" ⟨7, 8⟩ [] rfl rfl).2.1 ⟨[⟨"K", 1, 2, 3⟩], 3, 4⟩

/-- C7: a missing environment variable or a failing connection/client
construction is a fatal startup error (non-zero exit status), and every
run that passes startup validation exits with status 0, whatever the
provider and database then do — even if every address failed. -/
theorem exit_status_policy :
    (∀ key connectOk clientOk rows cache0 queryOk provider writeOk now,
      (main_run none key connectOk clientOk rows cache0 queryOk
        provider writeOk now).exitCode ≠ 0) ∧
    (∀ uri key clientOk rows cache0 queryOk provider writeOk now,
      (main_run uri key false clientOk rows cache0 queryOk
        provider writeOk now).exitCode ≠ 0) ∧
    (∀ u connectOk clientOk rows cache0 queryOk provider writeOk now,
      (main_run (some u) none connectOk clientOk rows cache0 queryOk
        provider writeOk now).exitCode ≠ 0) ∧
    (∀ u k rows cache0 queryOk provider writeOk now,
      (main_run (some u) (some k) true false rows cache0 queryOk
        provider writeOk now).exitCode ≠ 0) ∧
    (∀ u k rows cache0 queryOk provider writeOk now,
      (main_run (some u) (some k) true true rows cache0 queryOk
        provider writeOk now).exitCode = 0) := by
  refine ⟨?_, ?_, ?_, ?_, ?_⟩
  · intro key connectOk clientOk rows cache0 queryOk provider writeOk now
    simp [main_run, get_db_connection]
  · intro uri key clientOk rows cache0 queryOk provider writeOk now
    rcases uri with _ | u <;> simp [main_run, get_db_connection]
  · intro u connectOk clientOk rows cache0 queryOk provider writeOk now
    rcases connectOk <;> simp [main_run, get_db_connection, get_gmaps_client]
  · intro u k rows cache0 queryOk provider writeOk now
    simp [main_run, get_db_connection, get_gmaps_client]
  · intro u k rows cache0 queryOk provider writeOk now
    simp only [main_run, get_db_connection, get_gmaps_client]
    by_cases h : fetch_missing_addresses rows cache0 queryOk = [] <;> simp [h]

/-- C8: when the pending-address query fails, `fetch_missing_addresses`
reports an empty list, so the run performs no lookups or upserts (the
cache is returned unchanged and both counters are zero) and terminates
normally with status 0. -/
theorem query_failure_noop (u k : String) (rows : List ListingRow)
    (cache0 : List CacheEntry) (provider : Provider)
    (writeOk : String → Bool) (now : Int) :
    fetch_missing_addresses rows cache0 false = [] ∧
    main_run (some u) (some k) true true rows cache0 false provider writeOk now
      = ⟨0, cache0, 0, 0, 0⟩ := by
  constructor
  · rfl
  · simp [main_run, get_db_connection, get_gmaps_client,
      fetch_missing_addresses]

/-- Every key returned by the query is the normalized address of some
source row that passed the null/blank filter. -/
theorem mem_fetch_source (rows : List ListingRow) (cache : List CacheEntry)
    (queryOk : Bool) (kk : String)
    (hk : kk ∈ fetch_missing_addresses rows cache queryOk) :
    ∃ r ∈ rows, validRow r = true ∧ r.address.map normalize = some kk := by
  rcases queryOk with _ | _
  · simp [fetch_missing_addresses] at hk
  · unfold fetch_missing_addresses at hk
    simp only [if_true] at hk
    have h1 := List.mem_of_mem_take hk
    have h2 := (List.perm_insertionSort _ _).mem_iff.mp h1
    have h3 := List.mem_dedup.mp h2
    have h4 := (List.mem_filter.mp h3).1
    obtain ⟨r, hr, hmap⟩ := List.mem_filterMap.mp h4
    have hr2 := (List.mem_filter.mp hr).1
    have hrv := List.mem_filter.mp hr2
    exact ⟨r, hrv.1, hrv.2, hmap⟩

/-- C6: source rows whose address is null, empty or whitespace-only are
never selected as pending: every selected key comes from a row whose
address is non-null and non-blank after trimming. -/
theorem blank_addresses_excluded (rows : List ListingRow)
    (cache : List CacheEntry) (queryOk : Bool) (kk : String)
    (hk : kk ∈ fetch_missing_addresses rows cache queryOk) :
    ∃ r ∈ rows, ∃ a, r.address = some a ∧ sqlTrim a ≠ "" ∧ kk = normalize a := by
  obtain ⟨r, hr, hv, hmap⟩ := mem_fetch_source rows cache queryOk kk hk
  rcases ha : r.address with _ | a
  · rw [ha] at hmap; simp at hmap
  · rw [ha] at hmap
    simp only [Option.map_some', Option.some.injEq] at hmap
    refine ⟨r, hr, a, ha, ?_, hmap.symm⟩
    unfold validRow at hv
    rw [ha] at hv
    simpa using hv

/-- Witness for C6: a source with a null row, a whitespace-only row and
one valid row selects only the valid row's normalized key. -/
theorem blank_addresses_excluded_witness :
    ∃ r ∈ ([⟨none, "s", 0⟩, ⟨some "   ", "s", 0⟩, ⟨some " x ", "s", 0⟩] :
        List ListingRow),
      ∃ a, r.address = some a ∧ sqlTrim a ≠ "" ∧ "X" = normalize a :=
  blank_addresses_excluded
    [⟨none, "s", 0⟩, ⟨some "   ", "s", 0⟩, ⟨some " x ", "s", 0⟩] [] true "X"
    (by decide)

/-- The upsert only ever writes the key it was given: the keys after an
upsert are among the given key and the keys already present. -/
theorem cacheKeys_upsert_subset (cache : List CacheEntry) (k : String)
    (lat lng now : Int) :
    cacheKeys (upsert cache k lat lng now) ⊆ k :: cacheKeys cache := by
  intro x hx
  unfold upsert at hx
  split at hx
  · unfold cacheKeys at hx
    rw [List.map_map] at hx
    obtain ⟨e0, he0, hex⟩ := List.mem_map.mp hx
    simp only [Function.comp_apply] at hex
    by_cases hek : (e0.address_key == k) = true
    · rw [if_pos hek] at hex
      exact hex ▸ List.mem_cons_self _ _
    · rw [if_neg hek] at hex
      exact hex ▸ List.mem_cons_of_mem _ (List.mem_map_of_mem _ he0)
  · unfold cacheKeys at hx
    rw [List.map_append] at hx
    rcases List.mem_append.mp hx with h | h
    · exact List.mem_cons_of_mem _ h
    · simp only [List.map_cons, List.map_nil, List.mem_singleton] at h
      exact h ▸ List.mem_cons_self _ _

/-- C3: the read path and the write path use the same normalization. The
three example inputs share one cache key; every key selected as pending
is the normalized form of a source address; and the loop body writes the
cache only under the pending key it was handed (so the written key is
that same normalized form). -/
theorem normalization_consistent :
    (normalize "123 Main St" = "123 MAIN ST" ∧
     normalize " 123 main st " = "123 MAIN ST" ∧
     normalize "123 MAIN ST" = "123 MAIN ST") ∧
    (∀ rows cache queryOk kk, kk ∈ fetch_missing_addresses rows cache queryOk →
      ∃ r ∈ rows, r.address.map normalize = some kk) ∧
    (∀ provider writeOk now st a,
      cacheKeys (processAddress provider writeOk now st a).cache ⊆
        a :: cacheKeys st.cache) := by
  refine ⟨⟨by decide, by decide, by decide⟩, ?_, ?_⟩
  · intro rows cache queryOk kk hk
    obtain ⟨r, hr, _, hmap⟩ := mem_fetch_source rows cache queryOk kk hk
    exact ⟨r, hr, hmap⟩
  · intro provider writeOk now st a
    unfold processAddress
    rcases hga : geocode_address provider a with ⟨lat, lng⟩
    rcases lat with _ | la <;> rcases lng with _ | ln
    · exact List.subset_cons_self _ _
    · exact List.subset_cons_self _ _
    · exact List.subset_cons_self _ _
    · unfold insert_location
      rcases hw : writeOk a
      · exact List.subset_cons_self _ _
      · exact cacheKeys_upsert_subset st.cache a la ln now

theorem cacheHasKey_iff (cache : List CacheEntry) (k : String) :
    cacheHasKey cache k = true ↔ k ∈ cacheKeys cache := by
  unfold cacheHasKey cacheKeys
  rw [List.any_eq_true]
  constructor
  · rintro ⟨e, he, heq⟩
    exact List.mem_map.mpr ⟨e, he, by simpa using heq⟩
  · intro hm
    obtain ⟨e, he, heq⟩ := List.mem_map.mp hm
    exact ⟨e, he, by simpa using heq⟩

/-- Searching the conflict-updated rows for the conflicting key finds the
updated row exactly when the key was present. -/
theorem find?_upsertMap (l : List CacheEntry) (k : String) (lat lng now : Int) :
    (l.map fun e => if e.address_key == k then CacheEntry.mk k lat lng now
        else e).find? (fun e => e.address_key == k)
      = if l.any (fun e => e.address_key == k) then
          some (CacheEntry.mk k lat lng now) else none := by
  induction l with
  | nil => simp
  | cons e l ih =>
    rw [List.map_cons, List.any_cons]
    by_cases he : (e.address_key == k) = true
    · rw [if_pos he]
      simp [List.find?_cons, he]
    · have he2 : (e.address_key == k) = false := by simpa using he
      rw [if_neg he]
      simp only [List.find?_cons, he2, Bool.false_or, ih]

/-- Searching for a different key is unaffected by the conflict update. -/
theorem find?_upsertMap_other (l : List CacheEntry) (k k2 : String)
    (lat lng now : Int) (hne : k2 ≠ k) :
    (l.map fun e => if e.address_key == k then CacheEntry.mk k lat lng now
        else e).find? (fun e => e.address_key == k2)
      = l.find? (fun e => e.address_key == k2) := by
  induction l with
  | nil => simp
  | cons e l ih =>
    rw [List.map_cons]
    by_cases he : (e.address_key == k) = true
    · have hek : e.address_key = k := by simpa using he
      have hkk2 : (k == k2) = false := by
        rw [beq_eq_false_iff_ne]; exact Ne.symm hne
      have hek2 : (e.address_key == k2) = false := by rw [hek]; exact hkk2
      rw [if_pos he]
      simp only [List.find?_cons]
      rw [show ((CacheEntry.mk k lat lng now).address_key == k2) = false from
            hkk2, hek2]
      exact ih
    · rw [if_neg he]
      simp only [List.find?_cons, ih]

/-- After an upsert, the upserted key maps to the written row. -/
theorem lookupCache_upsert_self (cache : List CacheEntry) (k : String)
    (lat lng now : Int) :
    lookupCache (upsert cache k lat lng now) k = some (lat, lng, now) := by
  unfold lookupCache upsert
  by_cases h : cacheHasKey cache k = true
  · rw [if_pos h, find?_upsertMap]
    unfold cacheHasKey at h
    rw [if_pos h]
    rfl
  · rw [if_neg h, List.find?_append]
    unfold cacheHasKey at h
    have hnone : cache.find? (fun e => e.address_key == k) = none := by
      rw [List.find?_eq_none]
      intro e he hek
      simp only [List.any_eq_true, not_exists, not_and] at h
      exact h e he hek
    rw [hnone]
    simp [List.find?_cons]

/-- An upsert leaves every other key's cache row unchanged. -/
theorem lookupCache_upsert_other (cache : List CacheEntry) (k k2 : String)
    (lat lng now : Int) (hne : k2 ≠ k) :
    lookupCache (upsert cache k lat lng now) k2 = lookupCache cache k2 := by
  unfold lookupCache upsert
  by_cases h : cacheHasKey cache k = true
  · rw [if_pos h, find?_upsertMap_other cache k k2 lat lng now hne]
  · rw [if_neg h, List.find?_append]
    have hkk2 : (k == k2) = false := by
      rw [beq_eq_false_iff_ne]; exact Ne.symm hne
    have hlast : ([CacheEntry.mk k lat lng now] : List CacheEntry).find?
        (fun e => e.address_key == k2) = none := by
      simp [List.find?_cons, hkk2]
    rw [hlast, Option.or_none]

/-- When the key already exists the upsert rewrites a row in place, so
the key column is unchanged. -/
theorem cacheKeys_upsert_of_has (cache : List CacheEntry) (k : String)
    (lat lng now : Int) (h : cacheHasKey cache k = true) :
    cacheKeys (upsert cache k lat lng now) = cacheKeys cache := by
  unfold upsert
  rw [if_pos h]
  unfold cacheKeys
  rw [List.map_map]
  refine List.map_congr_left ?_
  intro e _
  simp only [Function.comp_apply]
  by_cases he : (e.address_key == k) = true
  · rw [if_pos he]
    exact (by simpa using he : e.address_key = k).symm
  · rw [if_neg he]

/-- When the key is new the upsert appends exactly one row with that key. -/
theorem cacheKeys_upsert_of_not_has (cache : List CacheEntry) (k : String)
    (lat lng now : Int) (h : ¬ cacheHasKey cache k = true) :
    cacheKeys (upsert cache k lat lng now) = cacheKeys cache ++ [k] := by
  unfold upsert
  rw [if_neg h]
  unfold cacheKeys
  rw [List.map_append]
  rfl

/-- The upsert preserves the unique-key invariant of the cache table. -/
theorem upsert_nodup (cache : List CacheEntry) (k : String)
    (lat lng now : Int) (h : (cacheKeys cache).Nodup) :
    (cacheKeys (upsert cache k lat lng now)).Nodup := by
  by_cases hk : cacheHasKey cache k = true
  · rw [cacheKeys_upsert_of_has cache k lat lng now hk]
    exact h
  · rw [cacheKeys_upsert_of_not_has cache k lat lng now hk]
    have hnotmem : k ∉ cacheKeys cache := fun hm =>
      hk ((cacheHasKey_iff cache k).mpr hm)
    simp [List.nodup_append, h, hnotmem]

/-- The upsert grows the table by one row for a new key and keeps its
size for an existing key. -/
theorem length_upsert (cache : List CacheEntry) (k : String)
    (lat lng now : Int) :
    (upsert cache k lat lng now).length
      = (if cacheHasKey cache k then cache.length else cache.length + 1) := by
  unfold upsert
  by_cases h : cacheHasKey cache k = true
  · rw [if_pos h, if_pos h, List.length_map]
  · rw [if_neg h, if_neg (by simpa using h), List.length_append]
    rfl

/-- After an upsert its key is present. -/
theorem cacheHasKey_upsert_self (cache : List CacheEntry) (k : String)
    (lat lng now : Int) :
    cacheHasKey (upsert cache k lat lng now) k = true := by
  rw [cacheHasKey_iff]
  by_cases h : cacheHasKey cache k = true
  · rw [cacheKeys_upsert_of_has cache k lat lng now h]
    exact (cacheHasKey_iff cache k).mp h
  · rw [cacheKeys_upsert_of_not_has cache k lat lng now h]
    simp

/-- C2: the upsert keeps at most one cache row per key: a successful
write reports `True`, preserves key uniqueness, makes the key map to the
new coordinates and timestamp, leaves every other key untouched, inserts
exactly when the key was absent, and a re-run with new coordinates
replaces the row without changing the number of rows. -/
theorem insert_location_upsert_invariant (cache : List CacheEntry)
    (k : String) (lat lng now : Int) (h : (cacheKeys cache).Nodup) :
    (insert_location cache k lat lng now true).2 = true ∧
    (cacheKeys (insert_location cache k lat lng now true).1).Nodup ∧
    lookupCache (insert_location cache k lat lng now true).1 k
      = some (lat, lng, now) ∧
    (∀ k2, k2 ≠ k → lookupCache (insert_location cache k lat lng now true).1 k2
      = lookupCache cache k2) ∧
    (insert_location cache k lat lng now true).1.length
      = (if cacheHasKey cache k then cache.length else cache.length + 1) ∧
    (∀ lat2 lng2 now2,
      lookupCache (insert_location (insert_location cache k lat lng now true).1
          k lat2 lng2 now2 true).1 k = some (lat2, lng2, now2) ∧
      (insert_location (insert_location cache k lat lng now true).1
          k lat2 lng2 now2 true).1.length
        = (insert_location cache k lat lng now true).1.length) := by
  have hins : ∀ (c : List CacheEntry) (l1 l2 n : Int),
      insert_location c k l1 l2 n true = (upsert c k l1 l2 n, true) :=
    fun _ _ _ _ => rfl
  simp only [hins]
  refine ⟨trivial, upsert_nodup cache k lat lng now h,
    lookupCache_upsert_self cache k lat lng now,
    fun k2 hk2 => lookupCache_upsert_other cache k k2 lat lng now hk2,
    length_upsert cache k lat lng now, ?_⟩
  intro lat2 lng2 now2
  refine ⟨lookupCache_upsert_self _ k lat2 lng2 now2, ?_⟩
  rw [length_upsert, if_pos (cacheHasKey_upsert_self cache k lat lng now)]

/-- Witness for C2 on a concrete two-row cache. -/
theorem insert_location_upsert_invariant_witness :
    lookupCache (insert_location [⟨"A", 1, 2, 3⟩, ⟨"B", 4, 5, 6⟩] "B" 7 8 9
        true).1 "B" = some (7, 8, 9) ∧
    (insert_location [⟨"A", 1, 2, 3⟩, ⟨"B", 4, 5, 6⟩] "B" 7 8 9 true).1.length
      = 2 :=
  ⟨(insert_location_upsert_invariant [⟨"A", 1, 2, 3⟩, ⟨"B", 4, 5, 6⟩] "B" 7 8 9
      (by decide)).2.2.1,
   by
    have := (insert_location_upsert_invariant [⟨"A", 1, 2, 3⟩, ⟨"B", 4, 5, 6⟩]
      "B" 7 8 9 (by decide)).2.2.2.2.1
    simpa using this⟩

/-- Taking the first `n` elements of the ascending sort of a
duplicate-free list yields a strictly sorted list of at most `n` of its
elements, and omits an element only when the cap is filled by strictly
smaller ones. -/
theorem insertionSort_take_spec (L : List String) (hnd : L.Nodup) (n : Nat) :
    List.Sorted (· < ·) ((List.insertionSort (· ≤ ·) L).take n) ∧
    ((List.insertionSort (· ≤ ·) L).take n).length ≤ n ∧
    (∀ kk ∈ (List.insertionSort (· ≤ ·) L).take n, kk ∈ L) ∧
    (∀ kk ∈ L, kk ∈ (List.insertionSort (· ≤ ·) L).take n ∨
      (((List.insertionSort (· ≤ ·) L).take n).length = n ∧
        ∀ m ∈ (List.insertionSort (· ≤ ·) L).take n, m < kk)) := by
  have hperm := List.perm_insertionSort (· ≤ ·) L
  have hndS : (List.insertionSort (· ≤ ·) L).Nodup := hperm.nodup_iff.mpr hnd
  have hsle : List.Sorted (· ≤ ·) (List.insertionSort (· ≤ ·) L) :=
    List.sorted_insertionSort _ _
  have hslt : List.Sorted (· < ·) (List.insertionSort (· ≤ ·) L) :=
    hsle.lt_of_le hndS
  have htk : List.Sublist ((List.insertionSort (· ≤ ·) L).take n)
      (List.insertionSort (· ≤ ·) L) := List.take_sublist _ _
  refine ⟨List.Pairwise.sublist htk hslt, List.length_take_le _ _, ?_, ?_⟩
  · intro kk hk
    exact hperm.mem_iff.mp (List.mem_of_mem_take hk)
  · intro kk hkL
    have hks : kk ∈ List.insertionSort (· ≤ ·) L := hperm.mem_iff.mpr hkL
    by_cases hin : kk ∈ (List.insertionSort (· ≤ ·) L).take n
    · exact Or.inl hin
    · have hsplit := List.take_append_drop n (List.insertionSort (· ≤ ·) L)
      have hkdrop : kk ∈ (List.insertionSort (· ≤ ·) L).drop n := by
        have hks2 : kk ∈ (List.insertionSort (· ≤ ·) L).take n
            ++ (List.insertionSort (· ≤ ·) L).drop n := by
          rw [hsplit]; exact hks
        rcases List.mem_append.mp hks2 with h | h
        · exact absurd h hin
        · exact h
      have hcross : ∀ a ∈ (List.insertionSort (· ≤ ·) L).take n,
          ∀ b ∈ (List.insertionSort (· ≤ ·) L).drop n, a < b := by
        have hp : List.Pairwise (fun a b => a < b)
            ((List.insertionSort (· ≤ ·) L).take n
              ++ (List.insertionSort (· ≤ ·) L).drop n) := by
          rw [hsplit]; exact hslt
        exact (List.pairwise_append.mp hp).2.2
      refine Or.inr ⟨?_, fun m hm => hcross m hm kk hkdrop⟩
      have hpos : 0 < ((List.insertionSort (· ≤ ·) L).drop n).length :=
        List.length_pos.mpr (List.ne_nil_of_mem hkdrop)
      rw [List.length_drop] at hpos
      rw [List.length_take]
      omega

/-- C1: the address-resolution query returns distinct normalized keys of
rank-1 source rows absent from the cache, strictly ascending, at most 50;
no cached key is selected, and a pending key is only omitted when the
50-row cap is already filled by strictly smaller pending keys. -/
theorem fetch_missing_addresses_correct (rows : List ListingRow)
    (cache : List CacheEntry) :
    List.Sorted (· < ·) (fetch_missing_addresses rows cache true) ∧
    (fetch_missing_addresses rows cache true).length ≤ 50 ∧
    (∀ kk ∈ fetch_missing_addresses rows cache true,
      pendingKey rows cache kk) ∧
    (∀ kk, pendingKey rows cache kk →
      kk ∈ fetch_missing_addresses rows cache true ∨
        ((fetch_missing_addresses rows cache true).length = 50 ∧
          ∀ m ∈ fetch_missing_addresses rows cache true, m < kk)) := by
  have hmem : ∀ kk : String,
      kk ∈ (((((rows.filter validRow).filter
            (denseRank1 (rows.filter validRow))).filterMap
          fun r => r.address.map normalize).filter
          fun k2 => !(cacheHasKey cache k2)).dedup)
        ↔ pendingKey rows cache kk := by
    intro kk
    rw [List.mem_dedup, List.mem_filter]
    unfold pendingKey
    constructor
    · rintro ⟨hkeys, hcache⟩
      obtain ⟨r, hr, hmap⟩ := List.mem_filterMap.mp hkeys
      have hr1 := List.mem_filter.mp hr
      exact ⟨⟨r, hr1.1, hr1.2, hmap⟩, by simpa using hcache⟩
    · rintro ⟨⟨r, hrf, hrank, hmap⟩, hcache⟩
      refine ⟨List.mem_filterMap.mpr
        ⟨r, List.mem_filter.mpr ⟨hrf, hrank⟩, hmap⟩, ?_⟩
      simp [hcache]
  obtain ⟨h1, h2, h3, h4⟩ := insertionSort_take_spec
    (((((rows.filter validRow).filter
        (denseRank1 (rows.filter validRow))).filterMap
      fun r => r.address.map normalize).filter
      fun k2 => !(cacheHasKey cache k2)).dedup) (List.nodup_dedup _) 50
  exact ⟨h1, h2, fun kk hk => (hmem kk).mp (h3 kk hk),
    fun kk hp => h4 kk ((hmem kk).mpr hp)⟩

end Geocode
